import Mathlib

/-
Verification of the task reconciliation and diff-presentation core of the
coverage tool (src/src/bin/coverage.rs).

Conventions of the embedding:
- Pure data is translated directly; terminal colour/attribute calls
  (t.fg, t.attr, t.reset) are not observable in the text model, so each
  printing function is modelled as the string it writes to the sink.
- The task catalogue (the meta crate) and the line-diff library (the
  difference crate) are collaborators that are not part of the sources
  under verification; the definitions that stand in for them carry a
  doc comment starting with "Modelled from the spec:".
-/

namespace Coverage

/-- A task, as described by the data model: title, remote url, optional
local source text, optional remote source text, optional local path. -/
structure Task where
  title : String
  url : String
  local_code : Option String
  remote_code : Option String
  local_path : Option String
deriving DecidableEq, Repr

/-- Derived status of a task, computed from presence of the two code fields. -/
inductive Status
  | Both
  | LocalOnly
  | RemoteOnly
  | Neither
deriving DecidableEq, Repr

/-- The Filter enum of coverage.rs (declared through the clap arg_enum
invocation): All, LocalOnly, RemoteOnly, Unimplemented. -/
inductive Filter
  | All
  | LocalOnly
  | RemoteOnly
  | Unimplemented
deriving DecidableEq, Repr

/-- The Default impl of Filter in coverage.rs returns Filter::All. -/
def Filter.default : Filter := Filter.All

/-- Modelled from the spec: Task::is_local_only lives in the external meta
crate; per the classifier contract, a task is local-only iff local_code is
present and remote_code is absent. -/
def Task.is_local_only (t : Task) : Bool :=
  t.local_code.isSome && t.remote_code.isNone

/-- Modelled from the spec: Task::is_remote_only of the meta crate; a task
is remote-only iff local_code is absent and remote_code is present. -/
def Task.is_remote_only (t : Task) : Bool :=
  t.local_code.isNone && t.remote_code.isSome

/-- Modelled from the spec: Task::is_unimplemented of the meta crate; a
task is unimplemented iff both code fields are absent. -/
def Task.is_unimplemented (t : Task) : Bool :=
  t.local_code.isNone && t.remote_code.isNone

/-- Modelled from the spec: classify(task) of the classifier contract,
total over the four presence combinations of the two code fields. -/
def classify (t : Task) : Status :=
  match t.local_code, t.remote_code with
  | some _, some _ => Status.Both
  | some _, none => Status.LocalOnly
  | none, some _ => Status.RemoteOnly
  | none, none => Status.Neither

/-- The filtering match at the top of the flat_map closure in main:
LocalOnly drops tasks that are not is_local_only, RemoteOnly drops tasks
that are not is_remote_only, Unimplemented drops tasks that are not
is_unimplemented, and the catch-all arm (Filter::All together with the
wildcard) keeps the task. Returns true iff the task is retained. -/
def retained (filter : Filter) (t : Task) : Bool :=
  match filter with
  | Filter.LocalOnly => t.is_local_only
  | Filter.RemoteOnly => t.is_remote_only
  | Filter.Unimplemented => t.is_unimplemented
  | Filter.All => true

/-- ASCII lowercasing of one character, as Rust to_ascii_lowercase does:
letters A..Z shift down by 32, everything else is unchanged. -/
def ascii_lower (c : Char) : Char :=
  if 'A' ≤ c ∧ c ≤ 'Z' then Char.ofNat (c.toNat + 32) else c

/-- Rust eq_ignore_ascii_case, modelled by comparing the ASCII
lowercasings of the two character sequences. -/
def eq_ignore_ascii_case (a b : String) : Bool :=
  a.data.map ascii_lower == b.data.map ascii_lower

/-- FromStr for Filter as generated by the clap 2.x arg_enum invocation in
coverage.rs: a token parses to a variant iff it equals the variant name
(All, LocalOnly, RemoteOnly, Unimplemented) up to ASCII case; anything
else is a parse error (here none). -/
def Filter.from_str (s : String) : Option Filter :=
  if eq_ignore_ascii_case s "All" then some Filter.All
  else if eq_ignore_ascii_case s "LocalOnly" then some Filter.LocalOnly
  else if eq_ignore_ascii_case s "RemoteOnly" then some Filter.RemoteOnly
  else if eq_ignore_ascii_case s "Unimplemented" then some Filter.Unimplemented
  else none

/-- The possible_values list attached to the --filter Arg in main. -/
def filterPossibleValues : List String :=
  ["all", "local", "remote", "unimplemented"]

/-- Modelled from the spec: clap rejects, as a usage error before any task
processing, a --filter token that is not one of the declared
possible_values; this predicate says whether a token reaches the program. -/
def acceptedFilterToken (s : String) : Bool :=
  filterPossibleValues.contains s

/-- The filter computation in main:
value_t!(matches.value_of("filter"), Filter).ok().unwrap_or_default().
An absent flag, or a token Filter's FromStr rejects, falls back to
Filter::default() (= All). -/
def parse_filter (arg : Option String) : Filter :=
  match arg with
  | none => Filter.default
  | some s => (Filter.from_str s).getD Filter.default

/-- Claim C1: for every filter and task, the task is retained for output
iff the filter permits its status: All retains everything, LocalOnly
retains exactly status LocalOnly, RemoteOnly exactly status RemoteOnly,
Unimplemented exactly status Neither. -/
theorem retained_matches_filter (f : Filter) (t : Task) :
    retained f t = true ↔
      (f = Filter.All ∨
        (f = Filter.LocalOnly ∧ classify t = Status.LocalOnly) ∨
        (f = Filter.RemoteOnly ∧ classify t = Status.RemoteOnly) ∨
        (f = Filter.Unimplemented ∧ classify t = Status.Neither)) := by
  cases f <;> cases hl : t.local_code <;> cases hr : t.remote_code <;>
    simp [retained, classify, Task.is_local_only, Task.is_remote_only,
      Task.is_unimplemented, hl, hr]

/-- Claim C2: evaluation of the filter-token pipeline of main. The absent
flag defaults to All and tokens "all"/"unimplemented" parse as claimed,
but the accepted tokens "local" and "remote" do NOT select LocalOnly and
RemoteOnly: Filter's FromStr (from the arg_enum invocation) matches only
variant names, so value_t fails on them and ok().unwrap_or_default()
silently yields Filter::All. -/
theorem filter_token_pipeline :
    parse_filter none = Filter.All
    ∧ parse_filter (some "all") = Filter.All
    ∧ parse_filter (some "unimplemented") = Filter.Unimplemented
    ∧ acceptedFilterToken "local" = true
    ∧ parse_filter (some "local") = Filter.All
    ∧ Filter.All ≠ Filter.LocalOnly
    ∧ acceptedFilterToken "remote" = true
    ∧ parse_filter (some "remote") = Filter.All
    ∧ Filter.All ≠ Filter.RemoteOnly := by
  decide

/-- Splitting a character sequence on newline characters; the result
always has at least one (possibly empty) piece, as Rust's split does. -/
def splitLinesAux : List Char → List (List Char)
  | [] => [[]]
  | c :: cs =>
    if c = '\n' then [] :: splitLinesAux cs
    else
      match splitLinesAux cs with
      | [] => [[c]]
      | l :: ls => (c :: l) :: ls

/-- Joining line pieces back with newline characters. -/
def joinLinesAux : List (List Char) → List Char
  | [] => []
  | [l] => l
  | l :: ls => l ++ '\n' :: joinLinesAux ls

/-- Rust str::split on a newline, lifted to String: "" gives [""], and
"a\nb" gives ["a", "b"]. -/
def rust_split_nl (s : String) : List String :=
  (splitLinesAux s.data).map (fun l => String.mk l)

/-- Modelled from the spec: the line decomposition used by the line-diff
library (the difference crate is an external collaborator). Both inputs
are split on newline boundaries; an empty text has no lines. -/
def lines (s : String) : List String :=
  if s.data = [] then [] else rust_split_nl s

/-- Joining a list of lines back into one text with newline separators. -/
def unlines (ls : List String) : String :=
  String.mk (joinLinesAux (ls.map String.data))

/-- One tagged segment of a diff, after the Difference enum of the diff
library: Same, Add (present in the second text only), Rem (present in
the first text only). -/
inductive Segment
  | Same (text : String)
  | Add (text : String)
  | Rem (text : String)
deriving DecidableEq, Repr

/-- The text carried by a segment. -/
def segment_text : Segment → String
  | Segment.Same x => x
  | Segment.Add x => x
  | Segment.Rem x => x

/-- Number of Same segments in a diff; used to pick the alignment with
the most common lines (longest common subsequence). -/
def sameCount : List Segment → Nat
  | [] => 0
  | Segment.Same _ :: rest => sameCount rest + 1
  | _ :: rest => sameCount rest

/-- Modelled from the spec: the diff computation of the external
difference crate, specified as a standard longest-common-subsequence
line diff. It walks both line sequences; equal heads become a Same
segment, otherwise it keeps whichever of the two one-step alternatives
retains more common lines, emitting one segment per line. -/
def diffLines : List String → List String → List Segment
  | [], [] => []
  | [], b :: bs => Segment.Add b :: diffLines [] bs
  | a :: as, [] => Segment.Rem a :: diffLines as []
  | a :: as, b :: bs =>
    if a = b then
      Segment.Same a :: diffLines as bs
    else if sameCount (diffLines (a :: as) bs) > sameCount (diffLines as (b :: bs)) then
      Segment.Add b :: diffLines (a :: as) bs
    else
      Segment.Rem a :: diffLines as (b :: bs)
termination_by as bs => as.length + bs.length

/-- The segment sequence of Changeset::new(s1, s2, "\n") as used by
print_diff: the diff of the two texts split on newlines. -/
def render_diff (s1 s2 : String) : List Segment :=
  diffLines (lines s1) (lines s2)

/-- The text print_diff writes for one segment: a Same segment is written
whole after a single space (writeln!(t, " {}", x)); Add and Rem segments
are split on newline characters and every line is written after a plus
or minus sign. Colour changes are not part of the text. -/
def render_segment : Segment → String
  | Segment.Same x => " " ++ x ++ "\n"
  | Segment.Add x => String.join ((rust_split_nl x).map (fun line => "+" ++ line ++ "\n"))
  | Segment.Rem x => String.join ((rust_split_nl x).map (fun line => "-" ++ line ++ "\n"))

/-- print_diff(t, s1, s2): the text written to the terminal, segment by
segment. -/
def print_diff (s1 s2 : String) : String :=
  String.join ((render_diff s1 s2).map render_segment)

/-- The marker the rendering policy assigns to each tag: space for Same,
plus for Add, minus for Rem. -/
def segment_mark : Segment → String
  | Segment.Same _ => " "
  | Segment.Add _ => "+"
  | Segment.Rem _ => "-"

/-- This definition follows the spec's words rather than the source: every
segment, Same included, is split on newlines and every line is written
individually behind the marker of its tag. -/
def render_segment_spec (seg : Segment) : String :=
  String.join ((rust_split_nl (segment_text seg)).map
    (fun line => segment_mark seg ++ line ++ "\n"))

/-- The diff rendering the spec describes, line by line. -/
def print_diff_spec (s1 s2 : String) : String :=
  String.join ((render_diff s1 s2).map render_segment_spec)

/-- The lines of the second (after) text described by a diff: the lines
of all Same and Add segments, in order. -/
def afterLines : List Segment → List String
  | [] => []
  | Segment.Same x :: rest => x :: afterLines rest
  | Segment.Add x :: rest => x :: afterLines rest
  | Segment.Rem _ :: rest => afterLines rest

/-- The lines of the first (before) text described by a diff: the lines
of all Same and Rem segments, in order. -/
def beforeLines : List Segment → List String
  | [] => []
  | Segment.Same x :: rest => x :: beforeLines rest
  | Segment.Add _ :: rest => beforeLines rest
  | Segment.Rem x :: rest => x :: beforeLines rest

theorem splitLinesAux_ne_nil (cs : List Char) : splitLinesAux cs ≠ [] := by
  cases cs with
  | nil => simp [splitLinesAux]
  | cons c cs =>
    simp only [splitLinesAux]
    split
    · simp
    · split <;> simp

theorem splitLinesAux_nl_free : ∀ (cs : List Char), ∀ l ∈ splitLinesAux cs, '\n' ∉ l := by
  intro cs
  induction cs with
  | nil =>
    intro l hl
    simp only [splitLinesAux, List.mem_singleton] at hl
    simp [hl]
  | cons c cs ih =>
    intro l hl
    simp only [splitLinesAux] at hl
    by_cases hc : c = '\n'
    · rw [if_pos hc] at hl
      rcases List.mem_cons.mp hl with rfl | h
      · simp
      · exact ih l h
    · rw [if_neg hc] at hl
      rcases hrest : splitLinesAux cs with _ | ⟨r, rs⟩
      · exact absurd hrest (splitLinesAux_ne_nil cs)
      · rw [hrest] at hl
        rcases List.mem_cons.mp hl with rfl | h
        · intro hmem
          rcases List.mem_cons.mp hmem with heq | h2
          · exact hc heq.symm
          · exact ih r (by rw [hrest]; exact List.mem_cons_self r rs) h2
        · exact ih l (by rw [hrest]; exact List.mem_cons_of_mem r h)

theorem joinLinesAux_splitLinesAux : ∀ cs, joinLinesAux (splitLinesAux cs) = cs := by
  intro cs
  induction cs with
  | nil => rfl
  | cons c cs ih =>
    simp only [splitLinesAux]
    by_cases hc : c = '\n'
    · rw [if_pos hc]
      rcases h : splitLinesAux cs with _ | ⟨r, rs⟩
      · exact absurd h (splitLinesAux_ne_nil cs)
      · rw [h] at ih
        subst hc
        simp only [joinLinesAux, List.nil_append]
        rw [ih]
    · rw [if_neg hc]
      rcases h : splitLinesAux cs with _ | ⟨r, rs⟩
      · exact absurd h (splitLinesAux_ne_nil cs)
      · rw [h] at ih
        cases rs with
        | nil =>
          simp only [joinLinesAux] at ih ⊢
          rw [ih]
        | cons r2 rs' =>
          simp only [joinLinesAux] at ih ⊢
          rw [List.cons_append, ih]

theorem string_mk_data (s : String) : String.mk s.data = s := by
  cases s
  rfl

theorem string_join_singleton (s : String) : String.join [s] = s := by
  cases s
  rfl

theorem unlines_lines (s : String) : unlines (lines s) = s := by
  rw [lines]
  by_cases h : s.data = []
  · rw [if_pos h]
    cases s with
    | mk d =>
      simp only at h
      subst h
      rfl
  · rw [if_neg h, unlines, rust_split_nl, List.map_map]
    have hcomp : (String.data ∘ fun l => String.mk l) = id := rfl
    rw [hcomp, List.map_id, joinLinesAux_splitLinesAux, string_mk_data]

theorem splitLinesAux_of_nl_free (cs : List Char) (h : '\n' ∉ cs) : splitLinesAux cs = [cs] := by
  induction cs with
  | nil => rfl
  | cons c cs ih =>
    simp only [splitLinesAux]
    have hc : ¬ c = '\n' := by
      intro hh
      exact h (by simp [hh])
    rw [if_neg hc, ih (fun hm => h (List.mem_cons_of_mem c hm))]

theorem rust_split_nl_of_nl_free (s : String) (h : '\n' ∉ s.data) : rust_split_nl s = [s] := by
  rw [rust_split_nl, splitLinesAux_of_nl_free s.data h]
  simp [string_mk_data]

theorem lines_nl_free (s : String) : ∀ x ∈ lines s, '\n' ∉ x.data := by
  intro x hx
  rw [lines] at hx
  split at hx
  · exact absurd hx (List.not_mem_nil x)
  · rw [rust_split_nl] at hx
    rcases List.mem_map.mp hx with ⟨l, hl, rfl⟩
    exact splitLinesAux_nl_free s.data l hl

theorem diffLines_self (l : List String) : diffLines l l = l.map Segment.Same := by
  induction l with
  | nil => simp [diffLines]
  | cons a as ih => simp [diffLines, ih]

theorem afterLines_diffLines (la lb : List String) : afterLines (diffLines la lb) = lb := by
  induction la, lb using diffLines.induct with
  | case1 => simp [diffLines, afterLines]
  | case2 b bs ih => simp [diffLines, afterLines, ih]
  | case3 a as ih => simp [diffLines, afterLines, ih]
  | case4 as b bs ih => simp [diffLines, afterLines, ih]
  | case5 a as b bs hne hgt ih1 ih2 => simp [diffLines, hne, hgt, afterLines, ih1]
  | case6 a as b bs hne hgt ih1 ih2 => simp [diffLines, hne, hgt, afterLines, ih2]

theorem beforeLines_diffLines (la lb : List String) : beforeLines (diffLines la lb) = la := by
  induction la, lb using diffLines.induct with
  | case1 => simp [diffLines, beforeLines]
  | case2 b bs ih => simp [diffLines, beforeLines, ih]
  | case3 a as ih => simp [diffLines, beforeLines, ih]
  | case4 as b bs ih => simp [diffLines, beforeLines, ih]
  | case5 a as b bs hne hgt ih1 ih2 => simp [diffLines, hne, hgt, beforeLines, ih1]
  | case6 a as b bs hne hgt ih1 ih2 => simp [diffLines, hne, hgt, beforeLines, ih2]

theorem segment_text_mem : ∀ (ds : List Segment), ∀ seg ∈ ds,
    segment_text seg ∈ beforeLines ds ∨ segment_text seg ∈ afterLines ds := by
  intro ds
  induction ds with
  | nil => intro seg h; cases h
  | cons d ds ih =>
    intro seg h
    rcases List.mem_cons.mp h with rfl | h2
    · cases seg with
      | Same x => left; simp [beforeLines, segment_text]
      | Add x => right; simp [afterLines, segment_text]
      | Rem x => left; simp [beforeLines, segment_text]
    · rcases ih seg h2 with h3 | h3
      · left
        cases d with
        | Same x => exact List.mem_cons_of_mem x h3
        | Add x => exact h3
        | Rem x => exact List.mem_cons_of_mem x h3
      · right
        cases d with
        | Same x => exact List.mem_cons_of_mem x h3
        | Add x => exact List.mem_cons_of_mem x h3
        | Rem x => exact h3

theorem render_diff_text_nl_free (s1 s2 : String) :
    ∀ seg ∈ render_diff s1 s2, '\n' ∉ (segment_text seg).data := by
  intro seg h
  rcases segment_text_mem (render_diff s1 s2) seg h with h2 | h2
  · rw [render_diff, beforeLines_diffLines] at h2
    exact lines_nl_free s1 _ h2
  · rw [render_diff, afterLines_diffLines] at h2
    exact lines_nl_free s2 _ h2

/-- Claim C3: for every pair of input texts, the rendered diff writes
every line of every segment individually behind the marker of its tag,
Same segments included: the output of print_diff coincides with the
line-by-line rendering print_diff_spec that the spec describes. -/
theorem same_lines_rendered_line_by_line (s1 s2 : String) :
    print_diff s1 s2 = print_diff_spec s1 s2 := by
  rw [print_diff, print_diff_spec]
  congr 1
  apply List.map_congr_left
  intro seg hseg
  cases seg with
  | Add x => rfl
  | Rem x => rfl
  | Same x =>
    have hnl : '\n' ∉ x.data := render_diff_text_nl_free s1 s2 _ hseg
    simp only [render_segment, render_segment_spec, segment_text, segment_mark]
    rw [rust_split_nl_of_nl_free x hnl]
    simp only [List.map_cons, List.map_nil]
    rw [string_join_singleton]

/-- Claim C5: diffing a text against itself yields only Same segments,
one per input line, in the original order. -/
theorem diff_of_identical_texts (a : String) :
    render_diff a a = (lines a).map Segment.Same := by
  rw [render_diff]
  exact diffLines_self (lines a)

/-- Claim C6: the diff of two texts round-trips structurally: joining the
lines of all Same and Add segments, in order, rebuilds the second text,
and joining the lines of all Same and Rem segments rebuilds the first. -/
theorem diff_round_trip (a b : String) :
    unlines (afterLines (render_diff a b)) = b ∧
    unlines (beforeLines (render_diff a b)) = a := by
  constructor
  · rw [render_diff, afterLines_diffLines, unlines_lines]
  · rw [render_diff, beforeLines_diffLines, unlines_lines]

/-- Claim C7: diffing the empty text against "x" gives exactly one Add
segment holding "x"; diffing "x" against the empty text gives exactly
one Rem segment holding "x". -/
theorem diff_against_empty :
    render_diff "" "x" = [Segment.Add "x"] ∧
    render_diff "x" "" = [Segment.Rem "x"] := by
  have h0 : lines "" = [] := rfl
  have h1 : lines "x" = ["x"] := rfl
  constructor
  · rw [render_diff, h0, h1]
    simp [diffLines]
  · rw [render_diff, h0, h1]
    simp [diffLines]

/-- write_status(t, boolean): the text written for one presence flag, a
check mark for true and a cross for false (bold and colour are not part
of the text model). -/
def write_status (b : Bool) : String :=
  if b then " ✔ " else " ✘ "

/-- print_task(t, task, diff): the text the function writes, paired with
the list of (s1, s2) argument pairs it passes to print_diff. The source
writes the title, the two presence lines, and then, only when both code
fields are present and diff is set, calls print_diff(t, remote_code,
local_code). -/
def print_task (task : Task) (diff : Bool) : String × List (String × String) :=
  let header := task.title ++ "\n"
    ++ "Local:" ++ write_status task.local_code.isSome
    ++ "Remote:" ++ write_status task.remote_code.isSome ++ "\n"
  match task.local_code, task.remote_code with
  | some lc, some rc =>
    if diff then (header ++ print_diff rc lc, [(rc, lc)]) else (header, [])
  | _, _ => (header, [])

/-- Claim C4: print_diff is invoked iff both code fields are present and
diff output is requested, and then exactly once, with remote_code as the
first (before) argument and local_code as the second (after) argument. -/
theorem print_task_diff_invocation (t : Task) (d : Bool) :
    ((print_task t d).2 ≠ [] ↔
      (t.local_code.isSome = true ∧ t.remote_code.isSome = true ∧ d = true))
    ∧ (∀ lc rc, t.local_code = some lc → t.remote_code = some rc → d = true →
        (print_task t d).2 = [(rc, lc)]) := by
  constructor
  · cases hl : t.local_code <;> cases hr : t.remote_code <;> cases d <;>
      simp [print_task, hl, hr]
  · intro lc rc hl hr hd
    subst hd
    simp [print_task, hl, hr]

/-- Claim C4, witness: a task with both codes present and diff requested
invokes the renderer once, on (remote, local). -/
theorem print_task_diff_invocation_witness :
    (print_task ⟨"T", "u", some "lc", some "rc", none⟩ true).2 = [("rc", "lc")] :=
  (print_task_diff_invocation ⟨"T", "u", some "lc", some "rc", none⟩ true).2
    "lc" "rc" rfl rfl rfl

/-- JSON values, with object fields kept as an ordered association list,
as built by the json macro in main. -/
inductive Json
  | null
  | str (s : String)
  | arr (xs : List Json)
  | obj (fields : List (String × Json))

/-- Serialization of an optional string: null when absent, as serde
serializes an Option. -/
def optStr : Option String → Json
  | none => Json.null
  | some s => Json.str s

/-- The export record built for one task in main: the json object with
fields title, url, local_code, remote_code, path, in that order. -/
def task_record (t : Task) : Json :=
  Json.obj
    [("title", Json.str t.title),
     ("url", Json.str t.url),
     ("local_code", optStr t.local_code),
     ("remote_code", optStr t.remote_code),
     ("path", optStr t.local_path)]

/-- The flat_map loop of main over the task list: a retained task is
printed (its text appended to the output) and, when a json file was
requested, contributes its export record; a dropped task contributes
nothing. Returns (printed output, collected records). -/
def main_loop (filter : Filter) (diff jsonRequested : Bool) : List Task → String × List Json
  | [] => ("", [])
  | t :: ts =>
    let rest := main_loop filter diff jsonRequested ts
    if retained filter t then
      ((print_task t diff).1 ++ rest.1,
        (if jsonRequested then [task_record t] else []) ++ rest.2)
    else
      rest

/-- A predicate for a JSON value that is a string or null. -/
def str_or_null (j : Json) : Prop :=
  (∃ s, j = Json.str s) ∨ j = Json.null

theorem str_or_null_optStr (o : Option String) : str_or_null (optStr o) := by
  cases o with
  | none => right; rfl
  | some s => left; exact ⟨s, rfl⟩

/-- Claim C8: running the two tasks (A with both codes, B without local
code) through the loop with filter All and export enabled collects
exactly two records, in input order, every field copied verbatim and the
absent local_code of B serialized as null; and, in general, a task the
filter excludes contributes neither output nor an export record. -/
theorem export_two_records (urlA urlB : String) (pA pB : Option String) (d : Bool) :
    (main_loop Filter.All d true
        [⟨"A", urlA, some "1", some "1", pA⟩, ⟨"B", urlB, none, some "2", pB⟩]).2 =
      [Json.obj
        [("title", Json.str "A"), ("url", Json.str urlA),
         ("local_code", Json.str "1"), ("remote_code", Json.str "1"),
         ("path", optStr pA)],
       Json.obj
        [("title", Json.str "B"), ("url", Json.str urlB),
         ("local_code", Json.null), ("remote_code", Json.str "2"),
         ("path", optStr pB)]]
    ∧ (∀ (f : Filter) (dd : Bool) (t : Task) (ts : List Task),
        retained f t = false →
          main_loop f dd true (t :: ts) = main_loop f dd true ts) := by
  constructor
  · simp [main_loop, retained, task_record, optStr]
  · intro f dd t ts h
    simp [main_loop, h]

/-- Claim C8, witness: with filter Unimplemented, task B (remote code
present) is excluded and contributes nothing. -/
theorem export_two_records_witness :
    main_loop Filter.Unimplemented true true [⟨"B", "u", none, some "2", none⟩] =
      main_loop Filter.Unimplemented true true [] :=
  (export_two_records "u" "u" none none true).2
    Filter.Unimplemented true ⟨"B", "u", none, some "2", none⟩ [] rfl

/-- Claim C9: every export record is the json object whose fields come in
the listed order title, url, local_code, remote_code, path, with title
and url strings and the three optional fields each a string or null. -/
theorem export_record_shape (t : Task) :
    ∃ jl jr jp,
      task_record t =
        Json.obj
          [("title", Json.str t.title), ("url", Json.str t.url),
           ("local_code", jl), ("remote_code", jr), ("path", jp)]
      ∧ str_or_null jl ∧ str_or_null jr ∧ str_or_null jp :=
  ⟨optStr t.local_code, optStr t.remote_code, optStr t.local_path, rfl,
    str_or_null_optStr t.local_code, str_or_null_optStr t.remote_code,
    str_or_null_optStr t.local_path⟩

/-- Escaping of one character inside a JSON string literal. -/
def escape_char (c : Char) : String :=
  if c = '"' then "\\\""
  else if c = '\\' then "\\\\"
  else if c = '\n' then "\\n"
  else String.mk [c]

/-- A JSON string literal: the escaped text between double quotes. -/
def json_quote (s : String) : String :=
  "\"" ++ String.join (s.data.map escape_char) ++ "\""

/-- Indentation of a given width. -/
def indentOf (n : Nat) : String :=
  String.mk (List.replicate n ' ')

mutual

/-- Modelled from the spec: the pretty-printed JSON document written by
serde_json::to_string_pretty (an external collaborator), with two-space
indentation per level; an empty array prints as the two brackets alone. -/
def Json.pretty_at : Nat → Json → String
  | _, Json.null => "null"
  | _, Json.str s => json_quote s
  | _, Json.arr [] => "[]"
  | n, Json.arr (x :: xs) =>
    "[\n" ++ pretty_items (n + 2) (x :: xs) ++ "\n" ++ indentOf n ++ "]"
  | _, Json.obj [] => "\x7b\x7d"
  | n, Json.obj (f :: fs) =>
    "\x7b\n" ++ pretty_fields (n + 2) (f :: fs) ++ "\n" ++ indentOf n ++ "\x7d"

/-- Pretty-printed array elements, one per line, comma separated. -/
def pretty_items : Nat → List Json → String
  | _, [] => ""
  | n, [x] => indentOf n ++ Json.pretty_at n x
  | n, x :: xs => indentOf n ++ Json.pretty_at n x ++ ",\n" ++ pretty_items n xs

/-- Pretty-printed object fields, one per line, comma separated. -/
def pretty_fields : Nat → List (String × Json) → String
  | _, [] => ""
  | n, [(k, v)] => indentOf n ++ json_quote k ++ ": " ++ Json.pretty_at n v
  | n, (k, v) :: fs =>
    indentOf n ++ json_quote k ++ ": " ++ Json.pretty_at n v ++ ",\n" ++ pretty_fields n fs

end

/-- serde_json::to_string_pretty applied to the collected record list. -/
def to_string_pretty (records : List Json) : String :=
  Json.pretty_at 0 (Json.arr records)

/-- The tail of main: when a json file name was given, the file is
created and the pretty-printed record array written to it (modelled as
the written (filename, contents) pair); otherwise nothing is written. -/
def export_output : Option String → List Json → Option (String × String)
  | some filename, records => some (filename, to_string_pretty records)
  | none, _ => none

theorem main_loop_all_excluded (f : Filter) (d j : Bool) :
    ∀ ts : List Task, (∀ t ∈ ts, retained f t = false) → main_loop f d j ts = ("", []) := by
  intro ts
  induction ts with
  | nil => intro _; rfl
  | cons t ts ih =>
    intro h
    have ht : retained f t = false := h t (List.mem_cons_self t ts)
    simp [main_loop, ht, ih (fun x hx => h x (List.mem_cons_of_mem t hx))]

/-- Claim C10: when a json file is requested and no task passes the
filter, the file is still written, and its contents are the
pretty-printed empty array. -/
theorem export_file_written_when_empty (f : Filter) (d : Bool) (ts : List Task)
    (filename : String) (h : ∀ t ∈ ts, retained f t = false) :
    export_output (some filename) (main_loop f d true ts).2 = some (filename, "[]") := by
  rw [main_loop_all_excluded f d true ts h]
  simp [export_output, to_string_pretty, Json.pretty_at]

/-- Claim C10, witness: a run over one task that the LocalOnly filter
excludes still writes the empty array to the requested file. -/
theorem export_file_written_when_empty_witness :
    export_output (some "tasks.json")
        (main_loop Filter.LocalOnly true true [⟨"B", "u", none, some "2", none⟩]).2 =
      some ("tasks.json", "[]") :=
  export_file_written_when_empty Filter.LocalOnly true
    [⟨"B", "u", none, some "2", none⟩] "tasks.json" (by decide)

end Coverage
